import Mathlib

/-!
Verification of `src/password_checker.py`.

Shallow embedding conventions:
* Python strings are `List Char`; `str.lower` is a character-wise ASCII
  lowercase map (all characters the checks care about are ASCII).
* Python sets of strings are `List (List Char)` used only through membership.
* IEEE floats are modelled as real numbers.  Every contribution to the
  pattern penalty is one of the integers 5 and 10, so the float accumulator
  of `penalty_for_repeated_and_sequential_patterns` holds an exact small
  integer at all times; it is computed as the natural number `penaltyNat`
  and cast to `ℝ`.
* The module-global `COMMON_PASSWORDS` (loaded from a file at import time,
  lines 19-23) is passed to the embedded functions as an explicit
  `commonSet` argument, since its contents are external input.
-/

namespace PasswordChecker

/-- Models Python `str.lower` character-wise (ASCII range). -/
def pyLower (p : List Char) : List Char := p.map Char.toLower

/-- The constant `KEYBOARD_PATTERNS` (line 26 of the source). -/
def KEYBOARD_PATTERNS : List (List Char) :=
  [['q', 'w', 'e', 'r', 't', 'y'],
   ['a', 's', 'd', 'f', 'g', 'h'],
   ['z', 'x', 'c', 'v', 'b', 'n'],
   ['1', '2', '3', '4', '5'],
   ['p', 'a', 's', 's', 'w', 'o', 'r', 'd'],
   ['a', 'd', 'm', 'i', 'n']]

/-- The character class of the regex `[a-z]` (line 34). -/
def isLowerAlpha (c : Char) : Bool := 'a' ≤ c && c ≤ 'z'

/-- The character class of the regex `[A-Z]` (line 36). -/
def isUpperAlpha (c : Char) : Bool := 'A' ≤ c && c ≤ 'Z'

/-- The character class of the regex `\d` (line 38), ASCII digits. -/
def isDigitChar (c : Char) : Bool := '0' ≤ c && c ≤ '9'

/-- The characters of the regex class on line 40, in source order. -/
def PUNCTUATION_CHARS : List Char :=
  ['!', '@', '#', '$', '%', '^', '&', '*', '(', ')', ',', '.', '?', '\"',
   ':', '\x7b', '\x7d', '|', '<', '>']

/-- Membership in the punctuation class of line 40. -/
def isPunctChar (c : Char) : Bool := PUNCTUATION_CHARS.contains c

/-- The pool accumulation of `calculate_base_entropy` (lines 33-41): each
character class present anywhere in the password adds its contribution. -/
def poolSize (p : List Char) : ℕ :=
  (if p.any isLowerAlpha then 26 else 0) +
  (if p.any isUpperAlpha then 26 else 0) +
  (if p.any isDigitChar then 10 else 0) +
  (if p.any isPunctChar then 22 else 0)

/-- `calculate_base_entropy` (lines 28-43):
`len(password) * math.log2(pool) if pool else 0.0`. -/
noncomputable def calculate_base_entropy (p : List Char) : ℝ :=
  if poolSize p = 0 then 0 else (p.length : ℝ) * Real.logb 2 (poolSize p)

/-- The regex search `(.)\1{2,}` (line 53): some character occurs three or
more times consecutively.  The dot of the regex does not match a newline
(DOTALL is not set), so a run of newlines does not fire. -/
def hasRepeatRun : List Char → Bool
  | a :: b :: c :: l => (!(a == '\n') && (a == b && b == c)) || hasRepeatRun (b :: c :: l)
  | _ => false

/-- The ascending test of line 58 on one triplet of character codes. -/
def ascTriple (a b c : Char) : Bool :=
  ((b.toNat : ℤ) - (a.toNat : ℤ) == 1) && ((c.toNat : ℤ) - (b.toNat : ℤ) == 1)

/-- The descending test of line 60 on one triplet of character codes. -/
def descTriple (a b c : Char) : Bool :=
  ((a.toNat : ℤ) - (b.toNat : ℤ) == 1) && ((b.toNat : ℤ) - (c.toNat : ℤ) == 1)

/-- The `if`/`elif` body of the loop of lines 57-61 at index `i`, counting 1
where the loop adds 5 (the default character is never read for in-range
indices). -/
def seqStep (p : List Char) (i : ℕ) : ℕ :=
  if ascTriple (p.getD i 'a') (p.getD (i + 1) 'a') (p.getD (i + 2) 'a') then 1
  else if descTriple (p.getD i 'a') (p.getD (i + 1) 'a') (p.getD (i + 2) 'a') then 1
  else 0

/-- The loop `for i in range(len(password) - 2)` (lines 57-61): the number
of triplet positions that match; the loop adds 5 for each. -/
def countSeqTriples (p : List Char) : ℕ :=
  ((List.range (p.length - 2)).map (seqStep p)).sum

/-- The loop of lines 64-66: how many keyboard patterns satisfy
`pattern in password.lower()`; the loop adds 10 for each. -/
def kbMatchCount (p : List Char) : ℕ :=
  KEYBOARD_PATTERNS.countP (fun pat => decide (pat <:+: pyLower p))

/-- The value of the float accumulator of lines 50-66 as the exact natural
number it always equals. -/
def penaltyNat (p : List Char) : ℕ :=
  (if hasRepeatRun p then 10 else 0) + 5 * countSeqTriples p + 10 * kbMatchCount p

/-- `penalty_for_repeated_and_sequential_patterns` (lines 45-68). -/
noncomputable def penalty_for_repeated_and_sequential_patterns (p : List Char) : ℝ :=
  (penaltyNat p : ℝ)

/-- `check_dictionary_words` (lines 70-84): the whole lowercased password,
or some slice `lower_pwd[i:j]` with `i in range(len)` and
`j in range(i+4, len+1)`, is a member of `dictionary`. -/
def check_dictionary_words (p : List Char) (dictionary : List (List Char)) : Bool :=
  let lower := pyLower p
  decide (lower ∈ dictionary) ||
    (List.range lower.length).any (fun i =>
      (List.range' (i + 4) (lower.length + 1 - (i + 4))).any (fun j =>
        decide ((lower.drop i).take (j - i) ∈ dictionary)))

/-- Line 96. -/
def MSG_COMMON : String := "Password is too common."

/-- Line 100. -/
def MSG_SHORT : String := "Password is too short; consider at least 8 characters."

/-- Line 104. -/
def MSG_DICT : String :=
  "Password contains dictionary words which makes it easier to guess."

/-- Line 107. -/
def MSG_PATTERN : String :=
  "Password contains repeated or sequential patterns which reduce its strength."

/-- Line 111. -/
def MSG_LONGER : String := "Consider using a longer password for increased security."

/-- Line 113. -/
def MSG_UPPER : String := "Adding uppercase letters can improve strength."

/-- Line 115. -/
def MSG_DIGIT : String := "Incorporating numbers can boost strength."

/-- Line 117. -/
def MSG_SPECIAL : String := "Using special characters can further strengthen your password."

/-- The condition `dictionary and check_dictionary_words(password, dictionary)`
of line 103: `None` and the empty set are falsy. -/
def dictTriggered (p : List Char) : Option (List (List Char)) → Bool
  | none => false
  | some d => !d.isEmpty && check_dictionary_words p d

/-- The list built by the successive `feedback.append` calls of
`get_password_feedback` (lines 91-117); `commonSet` stands for the
module-global `COMMON_PASSWORDS` read on line 95.  Line 106 tests the float
`penalty > 0`, which for the integer-valued accumulator is
`0 < penaltyNat p`. -/
def feedbackList (commonSet : List (List Char)) (p : List Char)
    (dictionary : Option (List (List Char))) : List String :=
  (if pyLower p ∈ commonSet then [MSG_COMMON] else []) ++
  (if p.length < 8 then [MSG_SHORT] else []) ++
  (if dictTriggered p dictionary then [MSG_DICT] else []) ++
  (if 0 < penaltyNat p then [MSG_PATTERN] else []) ++
  (if p.length < 12 then [MSG_LONGER] else []) ++
  (if !p.any isUpperAlpha then [MSG_UPPER] else []) ++
  (if !p.any isDigitChar then [MSG_DIGIT] else []) ++
  (if !p.any isPunctChar then [MSG_SPECIAL] else [])

/-- `get_password_feedback` (lines 86-119): the message list together with
the pattern penalty computed on line 92. -/
noncomputable def get_password_feedback (commonSet : List (List Char)) (p : List Char)
    (dictionary : Option (List (List Char))) : List String × ℝ :=
  (feedbackList commonSet p dictionary, (penaltyNat p : ℝ))

/-- The threshold chain of lines 131-140. -/
noncomputable def strengthLabel (e : ℝ) : String :=
  if e < 28 then "Very Weak"
  else if e < 36 then "Weak"
  else if e < 60 then "Moderate"
  else if e < 128 then "Strong"
  else "Very Strong"

/-- The result dictionary of lines 142-150. -/
structure EvaluationResult where
  password : List Char
  length : ℕ
  base_entropy : ℝ
  penalty : ℝ
  effective_entropy : ℝ
  strength : String
  feedback : List String

/-- `evaluate_password_strength` (lines 121-150); `commonSet` stands for the
module-global `COMMON_PASSWORDS` that the feedback step reads. -/
noncomputable def evaluate_password_strength (commonSet : List (List Char))
    (p : List Char) (dictionary : Option (List (List Char))) : EvaluationResult :=
  let base_entropy := calculate_base_entropy p
  let fb := get_password_feedback commonSet p dictionary
  let effective_entropy := max (base_entropy - fb.2) 0
  { password := p
    length := p.length
    base_entropy := base_entropy
    penalty := fb.2
    effective_entropy := effective_entropy
    strength := strengthLabel effective_entropy
    feedback := fb.1 }

/-- Rank of the five strength labels in their documented order. -/
def strengthRank (s : String) : ℕ :=
  if s = "Very Weak" then 0
  else if s = "Weak" then 1
  else if s = "Moderate" then 2
  else if s = "Strong" then 3
  else 4

/-- The nine checks of spec section 4.4 in their fixed order (the first step
computes the penalty, which only surfaces as the fourth message); written
from the spec for comparison with `feedbackList`. -/
def orderedChecks (commonSet : List (List Char)) (p : List Char)
    (dictionary : Option (List (List Char))) : List (Bool × String) :=
  [(decide (pyLower p ∈ commonSet), MSG_COMMON),
   (decide (p.length < 8), MSG_SHORT),
   (dictTriggered p dictionary, MSG_DICT),
   (decide (0 < penaltyNat p), MSG_PATTERN),
   (decide (p.length < 12), MSG_LONGER),
   (!p.any isUpperAlpha, MSG_UPPER),
   (!p.any isDigitChar, MSG_DIGIT),
   (!p.any isPunctChar, MSG_SPECIAL)]

/-- Structural form of the sequential-triplet count, used for induction. -/
def countSeqRec : List Char → ℕ
  | a :: b :: c :: l =>
      (if ascTriple a b c then 1 else if descTriple a b c then 1 else 0) +
        countSeqRec (b :: c :: l)
  | _ => 0

theorem seqStep_cons (x : Char) (q : List Char) (i : ℕ) :
    seqStep (x :: q) (i + 1) = seqStep q i := rfl

theorem countSeqTriples_eq : ∀ p : List Char, countSeqTriples p = countSeqRec p
  | [] => rfl
  | [_] => rfl
  | [_, _] => rfl
  | a :: b :: c :: l => by
      have IH := countSeqTriples_eq (b :: c :: l)
      have hlen : (a :: b :: c :: l).length - 2 = ((b :: c :: l).length - 2) + 1 := by
        simp only [List.length_cons]; omega
      unfold countSeqTriples
      rw [hlen, List.range_succ_eq_map, List.map_cons, List.map_map, List.sum_cons]
      have hmap : seqStep (a :: b :: c :: l) ∘ Nat.succ = seqStep (b :: c :: l) := by
        funext i; exact seqStep_cons a (b :: c :: l) i
      rw [hmap]
      have h0 : seqStep (a :: b :: c :: l) 0 =
          (if ascTriple a b c then 1 else if descTriple a b c then 1 else 0) := rfl
      rw [h0]
      unfold countSeqTriples at IH
      rw [IH]
      rfl

theorem countSeqRec_le_cons (x : Char) (p : List Char) :
    countSeqRec p ≤ countSeqRec (x :: p) := by
  cases p with
  | nil => exact Nat.zero_le _
  | cons a t =>
    cases t with
    | nil => exact Nat.zero_le _
    | cons b t2 =>
      simp only [countSeqRec]
      exact Nat.le_add_left _ _

theorem countSeqRec_le_append (u v : List Char) :
    countSeqRec v ≤ countSeqRec (u ++ v) := by
  induction u with
  | nil => exact Nat.le_refl _
  | cons x u ih => exact ih.trans (countSeqRec_le_cons x (u ++ v))

theorem countSeqRec_12345 (v : List Char) :
    3 ≤ countSeqRec ('1' :: '2' :: '3' :: '4' :: '5' :: v) := by
  simp only [countSeqRec]
  have h1 : ascTriple '1' '2' '3' = true := by decide
  have h2 : ascTriple '2' '3' '4' = true := by decide
  have h3 : ascTriple '3' '4' '5' = true := by decide
  rw [h1, h2, h3]
  simp
  omega

theorem hasRepeatRun_iff : ∀ p : List Char,
    hasRepeatRun p = true ↔ ∃ x : Char, x ≠ '\n' ∧ [x, x, x] <:+: p
  | [] => by
      simp only [hasRepeatRun]
      constructor
      · intro h; simp at h
      · rintro ⟨x, -, hx⟩; have := hx.length_le; simp at this
  | [a] => by
      simp only [hasRepeatRun]
      constructor
      · intro h; simp at h
      · rintro ⟨x, -, hx⟩; have := hx.length_le; simp at this
  | [a, b] => by
      simp only [hasRepeatRun]
      constructor
      · intro h; simp at h
      · rintro ⟨x, -, hx⟩; have := hx.length_le; simp at this
  | a :: b :: c :: l => by
      have IH := hasRepeatRun_iff (b :: c :: l)
      constructor
      · intro hp
        rw [show hasRepeatRun (a :: b :: c :: l) =
              ((!(a == '\n') && (a == b && b == c)) || hasRepeatRun (b :: c :: l))
            from rfl] at hp
        rcases Bool.or_eq_true_iff.mp hp with h | h
        · obtain ⟨hn, h12⟩ := Bool.and_eq_true_iff.mp h
          obtain ⟨h1, h2⟩ := Bool.and_eq_true_iff.mp h12
          have e1 : a = b := by simpa using h1
          have e2 : b = c := by simpa using h2
          have en : a ≠ '\n' := by simpa using hn
          subst e1; subst e2
          exact ⟨a, en, [], l, by simp⟩
        · obtain ⟨x, hn, hx⟩ := IH.mp h
          exact ⟨x, hn, hx.trans ⟨[a], [], by simp⟩⟩
      · rintro ⟨x, hn, hx⟩
        rw [List.infix_cons_iff] at hx
        rcases hx with hpre | hinf
        · simp only [List.cons_prefix_cons] at hpre
          obtain ⟨e1, e2, e3, -⟩ := hpre
          rw [show hasRepeatRun (a :: b :: c :: l) =
                ((!(a == '\n') && (a == b && b == c)) || hasRepeatRun (b :: c :: l))
              from rfl]
          have hcond : (!(a == '\n') && (a == b && b == c)) = true := by
            rw [← e1, ← e2, ← e3]
            simp [hn]
          rw [hcond]; rfl
        · rw [show hasRepeatRun (a :: b :: c :: l) =
              ((!(a == '\n') && (a == b && b == c)) || hasRepeatRun (b :: c :: l))
            from rfl]
          rw [IH.mpr ⟨x, hn, hinf⟩]
          simp


/-- Blocks of `"abc"`, a family of passwords with unboundedly many
sequential triplets and no other penalised structure. -/
def abcBlocks : ℕ → List Char
  | 0 => []
  | n + 1 => 'a' :: 'b' :: 'c' :: abcBlocks n

theorem abcBlocks_counts : ∀ n : ℕ,
    countSeqRec (abcBlocks n) = n ∧
    countSeqRec ('b' :: 'c' :: abcBlocks n) = n ∧
    countSeqRec ('c' :: abcBlocks n) = n ∧
    hasRepeatRun (abcBlocks n) = false ∧
    hasRepeatRun ('b' :: 'c' :: abcBlocks n) = false ∧
    hasRepeatRun ('c' :: abcBlocks n) = false
  | 0 => by refine ⟨rfl, rfl, rfl, rfl, rfl, rfl⟩
  | n + 1 => by
    obtain ⟨h1, h2, h3, h4, h5, h6⟩ := abcBlocks_counts n
    have e : abcBlocks (n + 1) = 'a' :: 'b' :: 'c' :: abcBlocks n := rfl
    have c1 : countSeqRec (abcBlocks (n + 1)) = n + 1 := by
      rw [e]
      show (if ascTriple 'a' 'b' 'c' then 1 else if descTriple 'a' 'b' 'c' then 1 else 0) +
        countSeqRec ('b' :: 'c' :: abcBlocks n) = n + 1
      rw [h2, (by decide : ascTriple 'a' 'b' 'c' = true)]
      simp [Nat.add_comm]
    have c3 : countSeqRec ('c' :: abcBlocks (n + 1)) = n + 1 := by
      rw [e]
      show (if ascTriple 'c' 'a' 'b' then 1 else if descTriple 'c' 'a' 'b' then 1 else 0) +
        countSeqRec ('a' :: 'b' :: 'c' :: abcBlocks n) = n + 1
      rw [(by decide : ascTriple 'c' 'a' 'b' = false),
        (by decide : descTriple 'c' 'a' 'b' = false), ← e, c1]
      simp
    have c2 : countSeqRec ('b' :: 'c' :: abcBlocks (n + 1)) = n + 1 := by
      rw [e]
      show (if ascTriple 'b' 'c' 'a' then 1 else if descTriple 'b' 'c' 'a' then 1 else 0) +
        countSeqRec ('c' :: 'a' :: 'b' :: 'c' :: abcBlocks n) = n + 1
      rw [(by decide : ascTriple 'b' 'c' 'a' = false),
        (by decide : descTriple 'b' 'c' 'a' = false)]
      have : countSeqRec ('c' :: 'a' :: 'b' :: 'c' :: abcBlocks n) =
          countSeqRec ('c' :: abcBlocks (n + 1)) := by rw [e]
      rw [this, c3]
      simp
    have r1 : hasRepeatRun (abcBlocks (n + 1)) = false := by
      rw [e]
      show ((!('a' == '\n') && ('a' == 'b' && 'b' == 'c')) ||
        hasRepeatRun ('b' :: 'c' :: abcBlocks n)) = false
      rw [h5]; decide
    have r3 : hasRepeatRun ('c' :: abcBlocks (n + 1)) = false := by
      rw [e]
      show ((!('c' == '\n') && ('c' == 'a' && 'a' == 'b')) ||
        hasRepeatRun ('a' :: 'b' :: 'c' :: abcBlocks n)) = false
      rw [← e, r1]; decide
    have r2 : hasRepeatRun ('b' :: 'c' :: abcBlocks (n + 1)) = false := by
      rw [e]
      show ((!('b' == '\n') && ('b' == 'c' && 'c' == 'a')) ||
        hasRepeatRun ('c' :: 'a' :: 'b' :: 'c' :: abcBlocks n)) = false
      have : hasRepeatRun ('c' :: 'a' :: 'b' :: 'c' :: abcBlocks n) =
          hasRepeatRun ('c' :: abcBlocks (n + 1)) := by rw [e]
      rw [this, r3]; decide
    exact ⟨c1, c2, c3, r1, r2, r3⟩

theorem abcBlocks_chars : ∀ n : ℕ, ∀ x ∈ abcBlocks n, x ∈ ['a', 'b', 'c']
  | 0 => by intro x hx; simp [abcBlocks] at hx
  | n + 1 => by
    intro x hx
    rw [show abcBlocks (n + 1) = 'a' :: 'b' :: 'c' :: abcBlocks n from rfl] at hx
    simp only [List.mem_cons] at hx
    rcases hx with h | h | h | h
    · simp [h]
    · simp [h]
    · simp [h]
    · exact abcBlocks_chars n x h

theorem pyLower_abcBlocks : ∀ n : ℕ, pyLower (abcBlocks n) = abcBlocks n
  | 0 => rfl
  | n + 1 => by
    show 'a'.toLower :: 'b'.toLower :: 'c'.toLower :: pyLower (abcBlocks n) =
      'a' :: 'b' :: 'c' :: abcBlocks n
    rw [pyLower_abcBlocks n, (by decide : 'a'.toLower = 'a'),
      (by decide : 'b'.toLower = 'b'), (by decide : 'c'.toLower = 'c')]

theorem kbMatchCount_abcBlocks (n : ℕ) : kbMatchCount (abcBlocks n) = 0 := by
  unfold kbMatchCount
  rw [pyLower_abcBlocks]
  rw [List.countP_eq_zero]
  intro pat hpat
  simp only [KEYBOARD_PATTERNS, List.mem_cons, List.not_mem_nil, or_false] at hpat
  simp only [decide_eq_true_eq]
  rcases hpat with h | h | h | h | h | h <;> subst h <;> intro hinf
  · exact absurd (abcBlocks_chars n 'q' (hinf.subset (by decide))) (by decide)
  · exact absurd (abcBlocks_chars n 's' (hinf.subset (by decide))) (by decide)
  · exact absurd (abcBlocks_chars n 'z' (hinf.subset (by decide))) (by decide)
  · exact absurd (abcBlocks_chars n '1' (hinf.subset (by decide))) (by decide)
  · exact absurd (abcBlocks_chars n 'p' (hinf.subset (by decide))) (by decide)
  · exact absurd (abcBlocks_chars n 'd' (hinf.subset (by decide))) (by decide)

theorem penaltyNat_abcBlocks (n : ℕ) : penaltyNat (abcBlocks n) = 5 * n := by
  obtain ⟨h1, -, -, h4, -, -⟩ := abcBlocks_counts n
  unfold penaltyNat
  rw [countSeqTriples_eq, h1, h4, kbMatchCount_abcBlocks]
  simp


theorem calculate_base_entropy_nonneg (p : List Char) : 0 ≤ calculate_base_entropy p := by
  unfold calculate_base_entropy
  split_ifs with h
  · exact le_refl 0
  · have h1 : (1 : ℝ) ≤ (poolSize p : ℝ) := by
      have := Nat.one_le_iff_ne_zero.mpr h
      exact_mod_cast this
    exact mul_nonneg (Nat.cast_nonneg _) (Real.logb_nonneg one_lt_two h1)

/-- C1: `effective_entropy = max(base_entropy − penalty, 0)`, hence it lies
between `0` and `base_entropy`, for every password, common-password set and
optional dictionary. -/
theorem evaluate_effective_entropy_range (commonSet : List (List Char))
    (p : List Char) (d : Option (List (List Char))) :
    (evaluate_password_strength commonSet p d).effective_entropy =
      max ((evaluate_password_strength commonSet p d).base_entropy -
        (evaluate_password_strength commonSet p d).penalty) 0 ∧
    0 ≤ (evaluate_password_strength commonSet p d).effective_entropy ∧
    (evaluate_password_strength commonSet p d).effective_entropy ≤
      (evaluate_password_strength commonSet p d).base_entropy := by
  refine ⟨rfl, le_max_right _ _, ?_⟩
  show max (calculate_base_entropy p - (penaltyNat p : ℝ)) 0 ≤ calculate_base_entropy p
  exact max_le (sub_le_self _ (Nat.cast_nonneg _)) (calculate_base_entropy_nonneg p)

/-- C2: the strength field is `strengthLabel` of the effective entropy; the
label follows the fixed half-open thresholds; and the label rank is
monotonically non-decreasing in the effective entropy. -/
theorem strength_thresholds (commonSet : List (List Char))
    (p : List Char) (d : Option (List (List Char))) :
    (evaluate_password_strength commonSet p d).strength =
      strengthLabel (evaluate_password_strength commonSet p d).effective_entropy ∧
    (∀ x : ℝ,
      (x < 28 → strengthLabel x = "Very Weak") ∧
      (28 ≤ x → x < 36 → strengthLabel x = "Weak") ∧
      (36 ≤ x → x < 60 → strengthLabel x = "Moderate") ∧
      (60 ≤ x → x < 128 → strengthLabel x = "Strong") ∧
      (128 ≤ x → strengthLabel x = "Very Strong")) ∧
    (∀ x y : ℝ, x ≤ y → strengthRank (strengthLabel x) ≤ strengthRank (strengthLabel y)) := by
  refine ⟨rfl, ?_, ?_⟩
  · intro x
    refine ⟨fun h => ?_, fun h1 h2 => ?_, fun h1 h2 => ?_, fun h1 h2 => ?_, fun h1 => ?_⟩ <;>
      unfold strengthLabel <;> split_ifs <;> first | rfl | linarith
  · intro x y hxy
    unfold strengthLabel
    split_ifs <;> first | decide | linarith

theorem strength_thresholds_witness :
    strengthLabel 30 = "Weak" ∧
      strengthRank (strengthLabel 30) ≤ strengthRank (strengthLabel 75) :=
  ⟨((strength_thresholds [] [] none).2.1 30).2.1 (by norm_num) (by norm_num),
   (strength_thresholds [] [] none).2.2 30 75 (by norm_num)⟩

/-- C3: the base entropy is `length * log2(pool)` where the pool adds 26, 26,
10 and 22 for the presence of a lowercase letter, an uppercase letter, a
digit and a punctuation character respectively, and is exactly 0 when no
class is present (in particular for the empty string). -/
theorem base_entropy_formula (p : List Char) :
    calculate_base_entropy p =
      (if poolSize p = 0 then (0 : ℝ) else (p.length : ℝ) * Real.logb 2 (poolSize p)) ∧
    poolSize p =
      (if ∃ c ∈ p, 'a' ≤ c ∧ c ≤ 'z' then 26 else 0) +
      (if ∃ c ∈ p, 'A' ≤ c ∧ c ≤ 'Z' then 26 else 0) +
      (if ∃ c ∈ p, '0' ≤ c ∧ c ≤ '9' then 10 else 0) +
      (if ∃ c ∈ p, c ∈ PUNCTUATION_CHARS then 22 else 0) ∧
    (poolSize p = 0 → calculate_base_entropy p = 0) ∧
    (p = [] → calculate_base_entropy p = 0) := by
  refine ⟨rfl, ?_, ?_, ?_⟩
  · have hl : (p.any isLowerAlpha = true) ↔ ∃ c ∈ p, 'a' ≤ c ∧ c ≤ 'z' := by
      simp [List.any_eq_true, isLowerAlpha]
    have hu : (p.any isUpperAlpha = true) ↔ ∃ c ∈ p, 'A' ≤ c ∧ c ≤ 'Z' := by
      simp [List.any_eq_true, isUpperAlpha]
    have hd : (p.any isDigitChar = true) ↔ ∃ c ∈ p, '0' ≤ c ∧ c ≤ '9' := by
      simp [List.any_eq_true, isDigitChar]
    have hq : (p.any isPunctChar = true) ↔ ∃ c ∈ p, c ∈ PUNCTUATION_CHARS := by
      simp [List.any_eq_true, isPunctChar, List.elem_eq_mem]
    unfold poolSize
    rw [if_congr hl rfl rfl, if_congr hu rfl rfl, if_congr hd rfl rfl,
      if_congr hq rfl rfl]
  · intro h; unfold calculate_base_entropy; rw [if_pos h]
  · intro h; subst h; rfl


theorem base_entropy_formula_witness :
    calculate_base_entropy [] = 0 ∧ calculate_base_entropy ['~'] = 0 :=
  ⟨(base_entropy_formula []).2.2.2 rfl, (base_entropy_formula ['~']).2.2.1 (by decide)⟩

/-- C5 counterexample: a run of three identical characters does not always
trigger the repeated-character rule — the regex dot does not match a
newline, so at the password of three newlines the rule contributes nothing
and the whole penalty is 0 rather than the 10 the claim demands. -/
theorem repeat_rule_newline_counterexample :
    (∃ x : Char, [x, x, x] <:+: ['\n', '\n', '\n']) ∧
      penalty_for_repeated_and_sequential_patterns ['\n', '\n', '\n'] = 0 := by
  constructor
  · exact ⟨'\n', [], [], by simp⟩
  · unfold penalty_for_repeated_and_sequential_patterns
    rw [(by decide : penaltyNat ['\n', '\n', '\n'] = 0)]
    norm_num

/-- C5 (amended): a password containing a run of three or more identical
consecutive characters other than the newline gets a flat 10 from the
repeated-character rule, exactly once in total no matter how many such runs
exist, on top of the other two independent contributions (a newline run
does not fire, since the regex dot does not match a newline). -/
theorem repeat_rule_flat_ten (p : List Char)
    (h : ∃ x : Char, x ≠ '\n' ∧ [x, x, x] <:+: p) :
    penalty_for_repeated_and_sequential_patterns p =
      10 + 5 * (countSeqTriples p : ℝ) + 10 * (kbMatchCount p : ℝ) := by
  unfold penalty_for_repeated_and_sequential_patterns penaltyNat
  rw [(hasRepeatRun_iff p).mpr h]
  push_cast
  norm_num

theorem repeat_rule_flat_ten_witness :
    penalty_for_repeated_and_sequential_patterns ['a', 'a', 'a', 'b', 'b', 'b'] = 10 := by
  rw [repeat_rule_flat_ten ['a', 'a', 'a', 'b', 'b', 'b']
      ⟨'a', by decide, [], ['b', 'b', 'b'], by simp⟩,
    (by decide : countSeqTriples ['a', 'a', 'a', 'b', 'b', 'b'] = 0),
    (by decide : kbMatchCount ['a', 'a', 'a', 'b', 'b', 'b'] = 0)]
  norm_num

/-- C6: the pattern penalty is the sum of the flat repeat contribution, 5 per
matching triplet index of the loop over `range(length - 2)` (overlapping
triplets counted independently), and 10 per keyboard pattern occurring
case-insensitively as a substring; it is nonnegative and has no upper
bound. -/
theorem penalty_decomposition (p : List Char) :
    penalty_for_repeated_and_sequential_patterns p =
      (if hasRepeatRun p then (10 : ℝ) else 0) +
        5 * (((List.range (p.length - 2)).map (seqStep p)).sum : ℝ) +
        10 * ((KEYBOARD_PATTERNS.countP (fun pat => decide (pat <:+: pyLower p))) : ℝ) ∧
    0 ≤ penalty_for_repeated_and_sequential_patterns p ∧
    ∀ B : ℝ, ∃ q : List Char, B < penalty_for_repeated_and_sequential_patterns q := by
  refine ⟨?_, Nat.cast_nonneg _, ?_⟩
  · unfold penalty_for_repeated_and_sequential_patterns penaltyNat countSeqTriples kbMatchCount
    push_cast
    split_ifs <;> ring
  · intro B
    obtain ⟨n, hn⟩ := exists_nat_gt B
    refine ⟨abcBlocks n, ?_⟩
    unfold penalty_for_repeated_and_sequential_patterns
    rw [penaltyNat_abcBlocks]
    push_cast
    have : (n : ℝ) ≤ 5 * n := by
      have : (0 : ℝ) ≤ (n : ℝ) := Nat.cast_nonneg _
      linarith
    linarith

theorem penalty_decomposition_witness :
    penalty_for_repeated_and_sequential_patterns ['a', 'b', 'c', 'd', 'e', 'f'] = 20 ∧
      ∃ q : List Char, (1000 : ℝ) < penalty_for_repeated_and_sequential_patterns q := by
  constructor
  · rw [(penalty_decomposition ['a', 'b', 'c', 'd', 'e', 'f']).1,
      (by decide : hasRepeatRun ['a', 'b', 'c', 'd', 'e', 'f'] = false)]
    rw [(by decide : ((List.range (['a', 'b', 'c', 'd', 'e', 'f'].length - 2)).map
        (seqStep ['a', 'b', 'c', 'd', 'e', 'f'])).sum = 4),
      (by decide : KEYBOARD_PATTERNS.countP
        (fun pat => decide (pat <:+: pyLower ['a', 'b', 'c', 'd', 'e', 'f'])) = 0)]
    norm_num
  · exact (penalty_decomposition []).2.2 1000


/-- C7: the dictionary scanner fires exactly when the whole lowercased
password, or a contiguous slice of it of length at least 4, belongs to the
dictionary; the empty dictionary and an absent dictionary never fire. -/
theorem dictionary_scan_iff (p : List Char) (d : List (List Char)) :
    (check_dictionary_words p d = true ↔
      pyLower p ∈ d ∨ ∃ i j : ℕ, i + 4 ≤ j ∧ j ≤ p.length ∧
        ((pyLower p).drop i).take (j - i) ∈ d) ∧
    check_dictionary_words p [] = false ∧
    dictTriggered p none = false := by
  refine ⟨?_, ?_, rfl⟩
  · have hlen : (pyLower p).length = p.length := List.length_map _ _
    unfold check_dictionary_words
    simp only [Bool.or_eq_true, decide_eq_true_eq, List.any_eq_true, List.mem_range,
      List.mem_range'_1]
    constructor
    · rintro (hm | ⟨i, hi, j, ⟨hj1, hj2⟩, hmem⟩)
      · exact Or.inl hm
      · exact Or.inr ⟨i, j, hj1, by omega, hmem⟩
    · rintro (hm | ⟨i, j, hj1, hj2, hmem⟩)
      · exact Or.inl hm
      · exact Or.inr ⟨i, by omega, j, ⟨hj1, by omega⟩, hmem⟩
  · unfold check_dictionary_words
    simp

theorem dictionary_scan_iff_witness :
    check_dictionary_words ['X', 'a', 'b', 'c', 'd'] [['a', 'b', 'c', 'd']] = true :=
  (dictionary_scan_iff ['X', 'a', 'b', 'c', 'd'] [['a', 'b', 'c', 'd']]).1.mpr
    (Or.inr ⟨1, 5, by norm_num, by norm_num, by decide⟩)

theorem mem_ite_singleton (s m : String) (c : Prop) [Decidable c] :
    s ∈ (if c then [m] else []) ↔ c ∧ s = m := by
  split_ifs with h <;> simp [h]

theorem filter_fst_cons (b : Bool) (m : String) (l : List (Bool × String)) :
    ((((b, m) :: l).filter Prod.fst).map Prod.snd) =
      (if b then [m] else []) ++ ((l.filter Prod.fst).map Prod.snd) := by
  cases b <;> simp [List.filter_cons]

/-- C8: the feedback of `get_password_feedback` is exactly the messages of
the triggered checks, in the fixed order of `orderedChecks` (too common,
too short, dictionary, patterns, longer, uppercase, digits, special); the
pattern penalty is returned alongside and surfaces only as the pattern
message, which appears iff the penalty is positive. -/
theorem feedback_fixed_order (commonSet : List (List Char)) (p : List Char)
    (d : Option (List (List Char))) :
    (get_password_feedback commonSet p d).1 =
      (((orderedChecks commonSet p d).filter Prod.fst).map Prod.snd) ∧
    (MSG_PATTERN ∈ (get_password_feedback commonSet p d).1 ↔ 0 < penaltyNat p) ∧
    (get_password_feedback commonSet p d).2 =
      penalty_for_repeated_and_sequential_patterns p := by
  refine ⟨?_, ?_, rfl⟩
  · show feedbackList commonSet p d = _
    unfold orderedChecks feedbackList
    rw [filter_fst_cons, filter_fst_cons, filter_fst_cons, filter_fst_cons,
      filter_fst_cons, filter_fst_cons, filter_fst_cons, filter_fst_cons]
    simp only [List.filter_nil, List.map_nil, List.append_nil, decide_eq_true_eq,
      List.append_assoc]
  · show MSG_PATTERN ∈ feedbackList commonSet p d ↔ 0 < penaltyNat p
    unfold feedbackList
    have n1 : MSG_PATTERN ≠ MSG_COMMON := by decide
    have n2 : MSG_PATTERN ≠ MSG_SHORT := by decide
    have n3 : MSG_PATTERN ≠ MSG_DICT := by decide
    have n4 : MSG_PATTERN ≠ MSG_LONGER := by decide
    have n5 : MSG_PATTERN ≠ MSG_UPPER := by decide
    have n6 : MSG_PATTERN ≠ MSG_DIGIT := by decide
    have n7 : MSG_PATTERN ≠ MSG_SPECIAL := by decide
    simp [mem_ite_singleton, n1, n2, n3, n4, n5, n6, n7]


/-- C4 counterexample: two evaluations with identical caller-visible
arguments `(password, dictionary)` but different values of the module-global
`COMMON_PASSWORDS` (the `commonSet` argument of the embedding) return
different results — the global alone decides whether the too-common message
appears — so the common-password set is hidden module state read by the
evaluation, not an argument of the source signature
`evaluate_password_strength(password, dictionary=None)`. -/
theorem evaluate_depends_on_global :
    evaluate_password_strength [['a', 'b', 'c']] ['a', 'b', 'c'] none ≠
      evaluate_password_strength [] ['a', 'b', 'c'] none ∧
    MSG_COMMON ∈ (evaluate_password_strength [['a', 'b', 'c']] ['a', 'b', 'c'] none).feedback ∧
    MSG_COMMON ∉ (evaluate_password_strength [] ['a', 'b', 'c'] none).feedback := by
  refine ⟨?_, ?_, ?_⟩
  · intro h
    have hf := congrArg EvaluationResult.feedback h
    have h1 : (evaluate_password_strength [['a', 'b', 'c']] ['a', 'b', 'c'] none).feedback =
        feedbackList [['a', 'b', 'c']] ['a', 'b', 'c'] none := rfl
    have h2 : (evaluate_password_strength [] ['a', 'b', 'c'] none).feedback =
        feedbackList [] ['a', 'b', 'c'] none := rfl
    rw [h1, h2] at hf
    exact absurd hf (by decide)
  · show MSG_COMMON ∈ feedbackList [['a', 'b', 'c']] ['a', 'b', 'c'] none
    decide
  · show MSG_COMMON ∉ feedbackList [] ['a', 'b', 'c'] none
    decide

/-- C4 (amended): with the module-global common-password set made an
explicit input, `evaluate_password_strength` is stateless and
deterministic: its result is exactly this record of pure functions of the
three inputs (so two calls with the same password, dictionary and global
set produce identical `EvaluationResult`s and no other state is consulted;
only the feedback field reads the common set), and the too-common message
appears exactly for case-insensitive members of that set. -/
theorem evaluate_deterministic (commonSet : List (List Char)) (p : List Char)
    (d : Option (List (List Char))) :
    evaluate_password_strength commonSet p d =
      { password := p
        length := p.length
        base_entropy := calculate_base_entropy p
        penalty := (penaltyNat p : ℝ)
        effective_entropy := max (calculate_base_entropy p - (penaltyNat p : ℝ)) 0
        strength := strengthLabel (max (calculate_base_entropy p - (penaltyNat p : ℝ)) 0)
        feedback := feedbackList commonSet p d } ∧
    (MSG_COMMON ∈ (evaluate_password_strength commonSet p d).feedback ↔
      pyLower p ∈ commonSet) := by
  constructor
  · rfl
  · show MSG_COMMON ∈ feedbackList commonSet p d ↔ pyLower p ∈ commonSet
    unfold feedbackList
    have n1 : MSG_COMMON ≠ MSG_SHORT := by decide
    have n2 : MSG_COMMON ≠ MSG_DICT := by decide
    have n3 : MSG_COMMON ≠ MSG_PATTERN := by decide
    have n4 : MSG_COMMON ≠ MSG_LONGER := by decide
    have n5 : MSG_COMMON ≠ MSG_UPPER := by decide
    have n6 : MSG_COMMON ≠ MSG_DIGIT := by decide
    have n7 : MSG_COMMON ≠ MSG_SPECIAL := by decide
    simp [mem_ite_singleton, n1, n2, n3, n4, n5, n6, n7]

theorem evaluate_deterministic_witness :
    MSG_COMMON ∈ (evaluate_password_strength [['a']] ['a'] none).feedback :=
  (evaluate_deterministic [['a']] ['a'] none).2.mpr (by decide)

/-- C9 counterexample: the fixed punctuation class of the source regex
consists of the 20 listed characters, not 22 of them. -/
theorem punctuation_not_22 : ¬ PUNCTUATION_CHARS.length = 22 := by decide

/-- C9 (amended): the punctuation class contains exactly the 20 listed
distinct symbols, and the presence of any one of them adds 22 to the pool
size. -/
theorem punctuation_class_pool (p : List Char) :
    PUNCTUATION_CHARS.length = 20 ∧
    PUNCTUATION_CHARS.Nodup ∧
    ((∃ c ∈ p, c ∈ PUNCTUATION_CHARS) →
      poolSize p =
        (if p.any isLowerAlpha then 26 else 0) +
        (if p.any isUpperAlpha then 26 else 0) +
        (if p.any isDigitChar then 10 else 0) + 22) := by
  refine ⟨by decide, by decide, fun h => ?_⟩
  have hq : p.any isPunctChar = true := by
    obtain ⟨c, hc, hmem⟩ := h
    exact List.any_eq_true.mpr ⟨c, hc, by
      simp [isPunctChar, List.elem_eq_mem, hmem]⟩
  unfold poolSize
  rw [hq]
  simp

theorem punctuation_class_pool_witness : poolSize ['!'] = 22 := by
  have h := (punctuation_class_pool ['!']).2.2 ⟨'!', by decide, by decide⟩
  rw [h, (by decide : (['!'].any isLowerAlpha) = false),
    (by decide : (['!'].any isUpperAlpha) = false),
    (by decide : (['!'].any isDigitChar) = false)]
  simp

/-- C10: any password containing `"12345"` incurs a penalty of at least 25:
10 from the keyboard-pattern entry and 5 from each of the three overlapping
ascending triplets, the two rules applying independently to the same
characters. -/
theorem overlap_12345_penalty (p : List Char)
    (h : ['1', '2', '3', '4', '5'] <:+: p) :
    (25 : ℝ) ≤ penalty_for_repeated_and_sequential_patterns p := by
  have hseq : 3 ≤ countSeqTriples p := by
    rw [countSeqTriples_eq]
    obtain ⟨s, t, hst⟩ := h
    have : countSeqRec (['1', '2', '3', '4', '5'] ++ t) ≤ countSeqRec p := by
      rw [← hst, List.append_assoc]
      exact countSeqRec_le_append s _
    exact le_trans (countSeqRec_12345 t) this
  have hkb : 1 ≤ kbMatchCount p := by
    have hmem : ['1', '2', '3', '4', '5'] ∈ KEYBOARD_PATTERNS := by decide
    have hinf : ['1', '2', '3', '4', '5'] <:+: pyLower p := by
      have := h.map Char.toLower
      rwa [show (['1', '2', '3', '4', '5'].map Char.toLower) =
        ['1', '2', '3', '4', '5'] from by decide] at this
    have : 0 < KEYBOARD_PATTERNS.countP (fun pat => decide (pat <:+: pyLower p)) :=
      List.countP_pos_iff.mpr ⟨_, hmem, by simp [hinf]⟩
    exact this
  have hn : 25 ≤ penaltyNat p := by
    unfold penaltyNat
    have : 0 ≤ (if hasRepeatRun p then 10 else 0) := Nat.zero_le _
    omega
  unfold penalty_for_repeated_and_sequential_patterns
  exact_mod_cast hn

theorem overlap_12345_penalty_witness :
    (25 : ℝ) ≤ penalty_for_repeated_and_sequential_patterns ['1', '2', '3', '4', '5'] :=
  overlap_12345_penalty ['1', '2', '3', '4', '5'] (List.infix_refl _)

end PasswordChecker
